import Mathlib

/-!
Verification of the durable outbound event delivery pipeline of the
amare-api repository: the append-only delivery ledger, its retry/backoff
scheduler, the replay worker, the payment classifier, the deferred-payment
reconciler, the Meta CAPI sender and the PII hashing helpers.

Each definition is a shallow embedding of the corresponding TypeScript
function; machine times are modelled in integral milliseconds, JavaScript
strings as lists of UTF-16 code units where character-level reasoning is
needed, and JavaScript truthiness is made explicit at each use site.
-/

namespace Amare

/-- Delivery status of a ledger row (`MetaQueueRecord['status']` in the source). -/
inductive QStatus where
  | PENDING
  | SENT
  | FAILED
  | DEAD
deriving DecidableEq, Repr

/-- The fields of a `meta_capi_queue` ledger row that the scheduler, the
retry scan and the attempt-count invariant depend on.  `updated_at` and
`next_attempt_at` are epoch milliseconds. -/
structure MetaQueueRecord where
  queue_id : Nat
  status : QStatus
  attempt_count : Nat
  updated_at : Nat
  next_attempt_at : Nat
deriving DecidableEq, Repr

/-- Embedding of `computeNextAttemptAt` (metaQueue service): next retry time is
`now + min(2^attemptCount, 60) minutes + jitter`, where the source draws the
jitter as `Math.random() * 30000` milliseconds; the jitter is a parameter here. -/
def computeNextAttemptAt (attemptCount nowMs jitterMs : Nat) : Nat :=
  nowMs + (min (2 ^ attemptCount) 60) * 60000 + jitterMs

/-- Embedding of `recordAttemptResult`: the new append-only row written after a
delivery attempt.  `attemptCount` is the attempt number being recorded (the
callers pass prior attempt count + 1), `success` is `outcome.success`. -/
def recordAttemptResult (base : MetaQueueRecord) (attemptCount : Nat)
    (success : Bool) (nowMs jitterMs : Nat) : MetaQueueRecord :=
  if success then
    ⟨base.queue_id, QStatus.SENT, attemptCount, nowMs, nowMs⟩
  else if 6 ≤ attemptCount then
    ⟨base.queue_id, QStatus.DEAD, attemptCount, nowMs, nowMs⟩
  else
    ⟨base.queue_id, QStatus.FAILED, attemptCount, nowMs,
      computeNextAttemptAt attemptCount nowMs jitterMs⟩

/-- C1: the Delivery Scheduler's state transition.  For every prior attempt
count, a successful outcome yields `SENT` with `next_attempt_at = now`; a failed
outcome with new attempt count `prior + 1 >= 6` yields `DEAD`; a failed outcome
with new attempt count `k = prior + 1 < 6` yields `FAILED` with
`next_attempt_at = now + min(2^k, 60) minutes + jitter`, the jitter lying in
`[0, 30)` seconds; and a failure on attempt 6 yields `DEAD`, never `FAILED`. -/
theorem recordAttemptResult_scheduler_spec (base : MetaQueueRecord)
    (prior : Nat) (success : Bool) (nowMs jitterMs : Nat)
    (hjit : jitterMs < 30000) :
    (success = true →
      recordAttemptResult base (prior + 1) success nowMs jitterMs =
        ⟨base.queue_id, QStatus.SENT, prior + 1, nowMs, nowMs⟩) ∧
    (success = false → 6 ≤ prior + 1 →
      (recordAttemptResult base (prior + 1) success nowMs jitterMs).status =
        QStatus.DEAD) ∧
    (success = false → prior + 1 < 6 →
      (recordAttemptResult base (prior + 1) success nowMs jitterMs).status =
          QStatus.FAILED ∧
      (recordAttemptResult base (prior + 1) success nowMs jitterMs).next_attempt_at =
          nowMs + (min (2 ^ (prior + 1)) 60) * 60000 + jitterMs ∧
      nowMs + (min (2 ^ (prior + 1)) 60) * 60000 ≤
          (recordAttemptResult base (prior + 1) success nowMs jitterMs).next_attempt_at ∧
      (recordAttemptResult base (prior + 1) success nowMs jitterMs).next_attempt_at <
          nowMs + (min (2 ^ (prior + 1)) 60) * 60000 + 30000) ∧
    (success = false → prior + 1 = 6 →
      (recordAttemptResult base (prior + 1) success nowMs jitterMs).status = QStatus.DEAD ∧
      (recordAttemptResult base (prior + 1) success nowMs jitterMs).status ≠ QStatus.FAILED) := by
  refine ⟨fun hs => ?_, fun hs h6 => ?_, fun hs h6 => ?_, fun hs h6 => ?_⟩
  · simp [recordAttemptResult, hs]
  · simp [recordAttemptResult, hs, h6]
  · have h6' : ¬ 6 ≤ prior + 1 := by omega
    refine ⟨?_, ?_, ?_, ?_⟩ <;>
      (simp [recordAttemptResult, hs, h6', computeNextAttemptAt]; try omega)
  · have h6' : 6 ≤ prior + 1 := by omega
    simp [recordAttemptResult, hs, h6']

/-- Witness for C1 at a concrete input: prior attempt count 2, failed outcome,
`now = 1000`, jitter 17 ms. -/
theorem recordAttemptResult_scheduler_spec_witness :
    (17 < 30000) ∧
    ((false = false → 2 + 1 < 6 →
      (recordAttemptResult ⟨9, QStatus.PENDING, 0, 0, 0⟩ (2 + 1) false 1000 17).status =
          QStatus.FAILED ∧
      (recordAttemptResult ⟨9, QStatus.PENDING, 0, 0, 0⟩ (2 + 1) false 1000 17).next_attempt_at =
          1000 + (min (2 ^ (2 + 1)) 60) * 60000 + 17 ∧
      1000 + (min (2 ^ (2 + 1)) 60) * 60000 ≤
          (recordAttemptResult ⟨9, QStatus.PENDING, 0, 0, 0⟩ (2 + 1) false 1000 17).next_attempt_at ∧
      (recordAttemptResult ⟨9, QStatus.PENDING, 0, 0, 0⟩ (2 + 1) false 1000 17).next_attempt_at <
          1000 + (min (2 ^ (2 + 1)) 60) * 60000 + 30000)) :=
  ⟨by decide,
    (recordAttemptResult_scheduler_spec ⟨9, QStatus.PENDING, 0, 0, 0⟩ 2 false 1000 17
      (by decide)).2.2.1⟩

/-- The structured result of one Meta CAPI delivery attempt
(`MetaSendResult` in the source). -/
structure MetaSendResult where
  success : Bool
  httpStatus : Option Nat
  responseJson : Option String
  latencyMs : Nat
  error : Option String
deriving DecidableEq, Repr

/-- Outcome of the underlying HTTP POST inside `sendEvent`: either axios
resolves with a status and a response body, or it rejects with an error that
optionally carries a response status, response data (already stringified) and
a message.  Network errors are `err none none msg`. -/
inductive HttpOutcome where
  | ok (status : Nat) (body : String)
  | err (responseStatus : Option Nat) (responseBody : Option String) (message : Option String)
deriving DecidableEq, Repr

/-- JavaScript truthiness collapse for `n || null` on numbers: 0 is falsy. -/
def truthyNat : Option Nat → Option Nat
  | some n => if n = 0 then none else some n
  | none => none

/-- JavaScript truthiness collapse for `s || null` on strings: "" is falsy. -/
def truthyStr : Option String → Option String
  | some s => if s = "" then none else some s
  | none => none

/-- Embedding of `metaCAPIClient.sendEvent`: a total function of the HTTP
outcome.  On success it returns `success: true` with the status, stringified
response and latency; in the catch branch it returns `success: false` with
`httpStatus = response?.status || null` (then `|| undefined`),
`responseJson = response?.data ? stringify(...) : null` (then `|| undefined`)
and `error = message || 'Unknown error'`.  It never throws. -/
def sendEvent (outcome : HttpOutcome) (latencyMs : Nat) : MetaSendResult :=
  match outcome with
  | .ok status body => ⟨true, some status, some body, latencyMs, none⟩
  | .err st body msg =>
    let httpStatus := truthyNat st
    let errorMessage := (truthyStr msg).getD "Unknown error"
    ⟨false, truthyNat httpStatus, truthyStr body, latencyMs, some errorMessage⟩

/-- C8: the Sender never raises.  For every outcome of the underlying HTTP
call it returns a structured `MetaSendResult`: on success, `success: true`
with the HTTP status, the response JSON and the latency; on failure,
`success: false` with an error message always present, and with the HTTP
status and response body passed through when available. -/
theorem sendEvent_never_raises (st : Option Nat) (body : Option String)
    (msg : Option String) (latencyMs status : Nat) (respBody : String) :
    (sendEvent (.ok status respBody) latencyMs =
      ⟨true, some status, some respBody, latencyMs, none⟩) ∧
    ((sendEvent (.err st body msg) latencyMs).success = false ∧
      (sendEvent (.err st body msg) latencyMs).error.isSome = true ∧
      (sendEvent (.err st body msg) latencyMs).latencyMs = latencyMs) ∧
    (∀ s, st = some s → s ≠ 0 →
      (sendEvent (.err st body msg) latencyMs).httpStatus = some s) ∧
    (∀ b, body = some b → b ≠ "" →
      (sendEvent (.err st body msg) latencyMs).responseJson = some b) ∧
    (∀ m, msg = some m → m ≠ "" →
      (sendEvent (.err st body msg) latencyMs).error = some m) ∧
    (∀ outcome : HttpOutcome,
      (sendEvent outcome latencyMs).success = true ∨
      ((sendEvent outcome latencyMs).success = false ∧
        (sendEvent outcome latencyMs).error.isSome = true)) := by
  refine ⟨rfl, ⟨rfl, rfl, rfl⟩, fun s hs hs0 => ?_, fun b hb hb0 => ?_,
    fun m hm hm0 => ?_, fun outcome => ?_⟩
  · subst hs
    simp [sendEvent, truthyNat, hs0]
  · subst hb
    simp [sendEvent, truthyStr, hb0]
  · subst hm
    simp [sendEvent, truthyStr, hm0]
  · cases outcome with
    | ok s b => exact Or.inl rfl
    | err s b m => exact Or.inr ⟨rfl, rfl⟩

/-- Witness for C8 at a concrete HTTP failure: status 500, body present,
network message present. -/
theorem sendEvent_never_raises_witness :
    (sendEvent (.err (some 500) (some "body") (some "boom")) 12).success = false ∧
    (sendEvent (.err (some 500) (some "boom") (some "boom")) 12).httpStatus = some 500 := by
  refine ⟨(sendEvent_never_raises (some 500) (some "body") (some "boom") 12 200 "r").2.1.1, ?_⟩
  exact (sendEvent_never_raises (some 500) (some "boom") (some "boom") 12 200 "r").2.2.1
    500 rfl (by decide)

/-- Pick the row with the larger `updated_at`; the later argument wins ties,
matching the append-order resolution of `ARRAY_AGG(t ORDER BY updated_at DESC
LIMIT 1)` on a ledger whose timestamps strictly increase. -/
def pickLater (a b : MetaQueueRecord) : MetaQueueRecord :=
  if a.updated_at ≤ b.updated_at then b else a

/-- The authoritative row of a queue: the row with maximum `updated_at`. -/
def authoritativeRow : List MetaQueueRecord → Option MetaQueueRecord
  | [] => none
  | r :: rest => some (rest.foldl pickLater r)

theorem foldl_pickLater_mem : ∀ (l : List MetaQueueRecord) (a : MetaQueueRecord),
    l.foldl pickLater a ∈ a :: l
  | [], a => List.mem_singleton.2 rfl
  | b :: t, a => by
    have ih := foldl_pickLater_mem t (pickLater a b)
    have hpick : pickLater a b = a ∨ pickLater a b = b := by
      unfold pickLater; split <;> simp
    simp only [List.foldl_cons]
    rcases List.mem_cons.1 ih with h | h
    · rw [h]
      rcases hpick with hp | hp <;> rw [hp]
      · exact List.mem_cons_self _ _
      · exact List.mem_cons_of_mem _ (List.mem_cons_self _ _)
    · exact List.mem_cons_of_mem _ (List.mem_cons_of_mem _ h)

theorem foldl_pickLater_le : ∀ (l : List MetaQueueRecord) (a x : MetaQueueRecord),
    x ∈ a :: l → x.updated_at ≤ (l.foldl pickLater a).updated_at
  | [], a, x, hx => by
    rw [List.mem_singleton.1 hx]
    exact Nat.le_refl _
  | b :: t, a, x, hx => by
    have hab : a.updated_at ≤ (pickLater a b).updated_at ∧
        b.updated_at ≤ (pickLater a b).updated_at := by
      unfold pickLater; split <;> constructor <;> omega
    have hstep : ∀ y : MetaQueueRecord, y ∈ pickLater a b :: t →
        y.updated_at ≤ (t.foldl pickLater (pickLater a b)).updated_at :=
      fun y hy => foldl_pickLater_le t (pickLater a b) y hy
    simp only [List.foldl_cons]
    rcases List.mem_cons.1 hx with h | h
    · rw [h]
      exact le_trans hab.1 (hstep _ (List.mem_cons_self _ _))
    · rcases List.mem_cons.1 h with h' | h'
      · rw [h']
        exact le_trans hab.2 (hstep _ (List.mem_cons_self _ _))
      · exact hstep x (List.mem_cons_of_mem _ h')

theorem authoritativeRow_append_last (l : List MetaQueueRecord) (r : MetaQueueRecord)
    (h : ∀ x ∈ l, x.updated_at ≤ r.updated_at) :
    authoritativeRow (l ++ [r]) = some r := by
  cases l with
  | nil => rfl
  | cons a t =>
    show some (List.foldl pickLater a (t ++ [r])) = some r
    rw [List.foldl_append]
    simp only [List.foldl_cons, List.foldl_nil]
    have hm := foldl_pickLater_mem t a
    have hle : (t.foldl pickLater a).updated_at ≤ r.updated_at :=
      h _ (by simpa using hm)
    generalize hX : t.foldl pickLater a = X at hle ⊢
    unfold pickLater
    rw [if_pos hle]

theorem recordAttemptResult_attempt_count (base : MetaQueueRecord) (k : Nat)
    (success : Bool) (nowMs jitterMs : Nat) :
    (recordAttemptResult base k success nowMs jitterMs).attempt_count = k ∧
    (recordAttemptResult base k success nowMs jitterMs).updated_at = nowMs := by
  unfold recordAttemptResult
  split
  · exact ⟨rfl, rfl⟩
  · split <;> exact ⟨rfl, rfl⟩

/-- The environment of one delivery attempt: how much time passed since the
previous ledger write, whether `getAccessToken` resolved a token for the brand,
the Sender outcome if it was invoked, and the backoff jitter drawn. -/
structure TickEnv where
  dt : Nat
  tokenResolved : Bool
  sendSuccess : Bool
  jitterMs : Nat

/-- Ledger simulation state for one `queue_id`: the rows written so far, the
wall clock (an upper bound on every `updated_at` written), the number of times
`metaCAPIClient.sendEvent` was invoked, and the number of synthesized
missing-token failure outcomes recorded without invoking the Sender. -/
structure QueueSim where
  clock : Nat
  rows : List MetaQueueRecord
  senderCalls : Nat
  syntheticFailures : Nat

/-- Embedding of `sendMetaWithQueue` for one `queue_id`: insert the PENDING
row with `attempt_count = 0`, then either invoke the Sender (token resolved)
or synthesize a `No access token` failure without invoking it; either way
record the outcome as a new row with `attempt_count = 1`. -/
def sendMetaWithQueue (qid : Nat) (e : TickEnv) : QueueSim :=
  if e.tokenResolved then
    ⟨e.dt + 1,
      [⟨qid, QStatus.PENDING, 0, e.dt, e.dt⟩,
        recordAttemptResult ⟨qid, QStatus.PENDING, 0, e.dt, e.dt⟩ 1 e.sendSuccess
          (e.dt + 1) e.jitterMs],
      1, 0⟩
  else
    ⟨e.dt + 1,
      [⟨qid, QStatus.PENDING, 0, e.dt, e.dt⟩,
        recordAttemptResult ⟨qid, QStatus.PENDING, 0, e.dt, e.dt⟩ 1 false
          (e.dt + 1) e.jitterMs],
      0, 1⟩

/-- Embedding of one replay-worker tick restricted to this `queue_id`: the
scan returns the authoritative row iff it is PENDING or FAILED and due; if so
the worker either invokes the Sender (token resolved) or synthesizes a
missing-token failure, and records the outcome with `attempt_count`
incremented by one. -/
def replayWorkerTick (e : TickEnv) (s : QueueSim) : QueueSim :=
  let now := s.clock + e.dt + 1
  match authoritativeRow s.rows with
  | none => ⟨now, s.rows, s.senderCalls, s.syntheticFailures⟩
  | some r =>
    if (r.status = QStatus.PENDING ∨ r.status = QStatus.FAILED) ∧ r.next_attempt_at ≤ now then
      if e.tokenResolved then
        ⟨now, s.rows ++ [recordAttemptResult r (r.attempt_count + 1) e.sendSuccess now e.jitterMs],
          s.senderCalls + 1, s.syntheticFailures⟩
      else
        ⟨now, s.rows ++ [recordAttemptResult r (r.attempt_count + 1) false now e.jitterMs],
          s.senderCalls, s.syntheticFailures + 1⟩
    else ⟨now, s.rows, s.senderCalls, s.syntheticFailures⟩

/-- A full history for one `queue_id`: the initial enqueue through
`sendMetaWithQueue` followed by any number of replay-worker ticks. -/
def runQueue (qid : Nat) (e0 : TickEnv) (ticks : List TickEnv) : QueueSim :=
  ticks.foldl (fun s e => replayWorkerTick e s) (sendMetaWithQueue qid e0)

/-- Simulation invariant: every row's timestamp is bounded by the clock and
the authoritative row's `attempt_count` equals Sender invocations plus
synthesized missing-token failures. -/
def SimInv (s : QueueSim) : Prop :=
  (∀ x ∈ s.rows, x.updated_at ≤ s.clock) ∧
  ∃ r, authoritativeRow s.rows = some r ∧
    r.attempt_count = s.senderCalls + s.syntheticFailures

theorem simInv_two_rows (qid t0 sc sf : Nat) (succ : Bool) (j : Nat)
    (hk : 1 = sc + sf) :
    SimInv ⟨t0 + 1,
      [⟨qid, QStatus.PENDING, 0, t0, t0⟩,
        recordAttemptResult ⟨qid, QStatus.PENDING, 0, t0, t0⟩ 1 succ (t0 + 1) j],
      sc, sf⟩ := by
  constructor
  · intro x hx
    rcases List.mem_cons.1 hx with h | h
    · rw [h]
      exact Nat.le_succ t0
    · rw [List.mem_singleton.1 h]
      rw [(recordAttemptResult_attempt_count _ _ _ _ _).2]
  · refine ⟨recordAttemptResult ⟨qid, QStatus.PENDING, 0, t0, t0⟩ 1 succ (t0 + 1) j, ?_, ?_⟩
    · exact authoritativeRow_append_last [⟨qid, QStatus.PENDING, 0, t0, t0⟩] _
        (by
          intro x hx
          rw [List.mem_singleton.1 hx, (recordAttemptResult_attempt_count _ _ _ _ _).2]
          exact Nat.le_succ t0)
    · rw [(recordAttemptResult_attempt_count _ _ _ _ _).1]
      exact hk

theorem sendMetaWithQueue_inv (qid : Nat) (e : TickEnv) :
    SimInv (sendMetaWithQueue qid e) := by
  unfold sendMetaWithQueue
  split
  · exact simInv_two_rows qid e.dt 1 0 e.sendSuccess e.jitterMs rfl
  · exact simInv_two_rows qid e.dt 0 1 false e.jitterMs rfl

theorem replayWorkerTick_inv (e : TickEnv) (s : QueueSim) (h : SimInv s) :
    SimInv (replayWorkerTick e s) := by
  obtain ⟨hb, r, hr, hc⟩ := h
  unfold replayWorkerTick
  rw [hr]
  simp only
  have hclock : s.clock ≤ s.clock + e.dt + 1 := by omega
  split
  · split
    · refine ⟨?_, ?_⟩
      · intro x hx
        dsimp only at hx ⊢
        rcases List.mem_append.1 hx with hx' | hx'
        · exact le_trans (hb x hx') hclock
        · rw [List.mem_singleton.1 hx', (recordAttemptResult_attempt_count _ _ _ _ _).2]
      · refine ⟨_, authoritativeRow_append_last _ _ ?_, ?_⟩
        · intro x hx
          rw [(recordAttemptResult_attempt_count _ _ _ _ _).2]
          exact le_trans (hb x hx) hclock
        · dsimp only
          rw [(recordAttemptResult_attempt_count _ _ _ _ _).1]
          omega
    · refine ⟨?_, ?_⟩
      · intro x hx
        dsimp only at hx ⊢
        rcases List.mem_append.1 hx with hx' | hx'
        · exact le_trans (hb x hx') hclock
        · rw [List.mem_singleton.1 hx', (recordAttemptResult_attempt_count _ _ _ _ _).2]
      · refine ⟨_, authoritativeRow_append_last _ _ ?_, ?_⟩
        · intro x hx
          rw [(recordAttemptResult_attempt_count _ _ _ _ _).2]
          exact le_trans (hb x hx) hclock
        · dsimp only
          rw [(recordAttemptResult_attempt_count _ _ _ _ _).1]
          omega
  · exact ⟨fun x hx => le_trans (hb x hx) hclock, r, hr, hc⟩

theorem runQueue_foldl_inv (ticks : List TickEnv) (s : QueueSim) (h : SimInv s) :
    SimInv (ticks.foldl (fun s e => replayWorkerTick e s) s) := by
  induction ticks generalizing s with
  | nil => exact h
  | cons e t ih => exact ih _ (replayWorkerTick_inv e s h)

theorem replayWorkerTick_synthetic (e : TickEnv) (s : QueueSim)
    (he : e.tokenResolved = true) (hs : s.syntheticFailures = 0) :
    (replayWorkerTick e s).syntheticFailures = 0 := by
  unfold replayWorkerTick
  cases hrow : authoritativeRow s.rows with
  | none => exact hs
  | some r =>
    dsimp only
    rw [if_pos he]
    split
    · exact hs
    · exact hs

theorem foldl_tick_synthetic_zero (t : List TickEnv) :
    ∀ s : QueueSim, (∀ e ∈ t, e.tokenResolved = true) → s.syntheticFailures = 0 →
      (t.foldl (fun s e => replayWorkerTick e s) s).syntheticFailures = 0 := by
  induction t with
  | nil => exact fun _ _ hs => hs
  | cons e t ih =>
    intro s h hs
    simp only [List.foldl_cons]
    exact ih _ (fun e' he' => h e' (List.mem_cons_of_mem _ he'))
      (replayWorkerTick_synthetic e s (h e (List.mem_cons_self _ _)) hs)

theorem runQueue_synthetic_zero (qid : Nat) (e0 : TickEnv) (ticks : List TickEnv)
    (h0 : e0.tokenResolved = true) (h : ∀ e ∈ ticks, e.tokenResolved = true) :
    (runQueue qid e0 ticks).syntheticFailures = 0 := by
  unfold runQueue
  refine foldl_tick_synthetic_zero ticks _ h ?_
  unfold sendMetaWithQueue
  rw [if_pos h0]

/-- C2 counterexample: enqueue a single event for a brand whose access token
does not resolve.  `sendMetaWithQueue` records a synthesized failure row with
`attempt_count = 1`, yet `metaCAPIClient.sendEvent` was never invoked, so the
authoritative row's `attempt_count` (1) differs from the number of Sender
invocations (0). -/
theorem attempt_count_ne_senderCalls_missing_token :
    (runQueue 7 ⟨0, false, false, 0⟩ []).senderCalls = 0 ∧
    Option.map (fun r => r.attempt_count)
      (authoritativeRow (runQueue 7 ⟨0, false, false, 0⟩ []).rows) = some 1 := by
  constructor
  · rfl
  · rfl

/-- C2 amended: after the initial enqueue and any number of replay-worker
ticks, the authoritative ledger row's `attempt_count` equals the number of
Sender invocations plus the number of synthesized missing-token failure
outcomes recorded; when the brand's access token resolves at every attempt it
equals the number of Sender invocations exactly. -/
theorem attempt_count_eq_recorded_attempts (qid : Nat) (e0 : TickEnv)
    (ticks : List TickEnv) :
    (∃ r, authoritativeRow (runQueue qid e0 ticks).rows = some r ∧
      r.attempt_count =
        (runQueue qid e0 ticks).senderCalls + (runQueue qid e0 ticks).syntheticFailures) ∧
    (e0.tokenResolved = true → (∀ e ∈ ticks, e.tokenResolved = true) →
      ∃ r, authoritativeRow (runQueue qid e0 ticks).rows = some r ∧
        r.attempt_count = (runQueue qid e0 ticks).senderCalls) := by
  have hinv : SimInv (runQueue qid e0 ticks) :=
    runQueue_foldl_inv ticks _ (sendMetaWithQueue_inv qid e0)
  obtain ⟨-, r, hr, hc⟩ := hinv
  refine ⟨⟨r, hr, hc⟩, fun h0 hall => ⟨r, hr, ?_⟩⟩
  rw [hc, runQueue_synthetic_zero qid e0 ticks h0 hall]
  exact Nat.add_zero _

/-- Witness for C2 amended: one enqueue (token resolved, send fails) followed
by one due worker tick (token resolved, send succeeds): two Sender calls, no
synthesized failures. -/
theorem attempt_count_eq_recorded_attempts_witness :
    ((⟨0, true, false, 5⟩ : TickEnv).tokenResolved = true) ∧
    (∃ r, authoritativeRow
        (runQueue 3 ⟨0, true, false, 5⟩ [⟨500000, true, true, 0⟩]).rows = some r ∧
      r.attempt_count =
        (runQueue 3 ⟨0, true, false, 5⟩ [⟨500000, true, true, 0⟩]).senderCalls) := by
  refine ⟨rfl, ?_⟩
  exact (attempt_count_eq_recorded_attempts 3 ⟨0, true, false, 5⟩
    [⟨500000, true, true, 0⟩]).2 rfl
    (by
      intro e he
      rw [List.mem_singleton.1 he])

theorem authoritativeRow_mem {l : List MetaQueueRecord} {r : MetaQueueRecord}
    (h : authoritativeRow l = some r) : r ∈ l := by
  cases l with
  | nil => cases h
  | cons a t =>
    have hr : t.foldl pickLater a = r := Option.some.inj h
    rw [← hr]
    exact foldl_pickLater_mem t a

theorem authoritativeRow_max {l : List MetaQueueRecord} {r : MetaQueueRecord}
    (h : authoritativeRow l = some r) :
    ∀ x ∈ l, x.updated_at ≤ r.updated_at := by
  cases l with
  | nil => cases h
  | cons a t =>
    have hr : t.foldl pickLater a = r := Option.some.inj h
    intro x hx
    rw [← hr]
    exact foldl_pickLater_le t a x hx

/-- The latest (maximum `updated_at`) row of `table` for a given `queue_id`:
the per-identity resolution computed by the `WITH latest AS (ARRAY_AGG(t ORDER
BY updated_at DESC LIMIT 1) ... GROUP BY queue_id)` subquery. -/
def latestFor (table : List MetaQueueRecord) (q : Nat) : Option MetaQueueRecord :=
  authoritativeRow (table.filter (fun r => decide (r.queue_id = q)))

/-- One latest row per `queue_id` occurring in `table` (the `latest` CTE). -/
def latestRows (table : List MetaQueueRecord) : List MetaQueueRecord :=
  ((table.map (fun r => r.queue_id)).dedup).filterMap (latestFor table)

/-- Ordering used by `ORDER BY next_attempt_at ASC`. -/
def nextAttemptLe (a b : MetaQueueRecord) : Prop :=
  a.next_attempt_at ≤ b.next_attempt_at

instance : DecidableRel nextAttemptLe := fun x y => Nat.decLe x.next_attempt_at y.next_attempt_at

instance : IsTotal MetaQueueRecord nextAttemptLe :=
  ⟨fun a b => Nat.le_total a.next_attempt_at b.next_attempt_at⟩

instance : IsTrans MetaQueueRecord nextAttemptLe :=
  ⟨fun _ _ _ hab hbc => Nat.le_trans hab hbc⟩

/-- Embedding of `getRetryableMetaEvents`: take the latest row per queue_id,
keep the PENDING/FAILED ones whose `next_attempt_at` has passed, order by
`next_attempt_at` ascending, and return at most `limit` rows. -/
def getRetryableMetaEvents (table : List MetaQueueRecord) (nowMs limit : Nat) :
    List MetaQueueRecord :=
  (List.insertionSort nextAttemptLe
    ((latestRows table).filter (fun r =>
      decide ((r.status = QStatus.PENDING ∨ r.status = QStatus.FAILED) ∧
        r.next_attempt_at ≤ nowMs)))).take limit

theorem latestFor_spec {table : List MetaQueueRecord} {q : Nat} {r : MetaQueueRecord}
    (h : latestFor table q = some r) :
    r ∈ table ∧ r.queue_id = q ∧
      ∀ x ∈ table, x.queue_id = q → x.updated_at ≤ r.updated_at := by
  have hmem := authoritativeRow_mem h
  have hmax := authoritativeRow_max h
  rw [List.mem_filter] at hmem
  refine ⟨hmem.1, of_decide_eq_true hmem.2, fun x hx hxq => ?_⟩
  exact hmax x (List.mem_filter.2 ⟨hx, decide_eq_true hxq⟩)

theorem mem_latestRows {table : List MetaQueueRecord} {r : MetaQueueRecord}
    (h : r ∈ latestRows table) : latestFor table r.queue_id = some r := by
  rw [latestRows, List.mem_filterMap] at h
  obtain ⟨q, -, hq⟩ := h
  have := (latestFor_spec hq).2.1
  rw [this]
  exact hq

/-- C3: the due-for-retry scan returns, per queue_id, only that queue_id's
latest row; every returned row is PENDING or FAILED with
`next_attempt_at <= now`; the result is ordered by `next_attempt_at`
ascending; at most `limit` rows are returned; and no queue_id whose latest row
is SENT or DEAD is ever returned. -/
theorem getRetryableMetaEvents_spec (table : List MetaQueueRecord)
    (nowMs limit : Nat) :
    (∀ r ∈ getRetryableMetaEvents table nowMs limit,
      r ∈ table ∧
      (∀ x ∈ table, x.queue_id = r.queue_id → x.updated_at ≤ r.updated_at) ∧
      (r.status = QStatus.PENDING ∨ r.status = QStatus.FAILED) ∧
      r.next_attempt_at ≤ nowMs) ∧
    List.Sorted nextAttemptLe (getRetryableMetaEvents table nowMs limit) ∧
    (getRetryableMetaEvents table nowMs limit).length ≤ limit ∧
    (∀ q s, latestFor table q = some s →
      (s.status = QStatus.SENT ∨ s.status = QStatus.DEAD) →
      ∀ r ∈ getRetryableMetaEvents table nowMs limit, r.queue_id ≠ q) := by
  have hmem : ∀ r ∈ getRetryableMetaEvents table nowMs limit,
      latestFor table r.queue_id = some r ∧
      (r.status = QStatus.PENDING ∨ r.status = QStatus.FAILED) ∧
      r.next_attempt_at ≤ nowMs := by
    intro r hr
    have h1 : r ∈ List.insertionSort nextAttemptLe
        ((latestRows table).filter (fun r =>
          decide ((r.status = QStatus.PENDING ∨ r.status = QStatus.FAILED) ∧
            r.next_attempt_at ≤ nowMs))) := List.take_subset _ _ hr
    rw [List.mem_insertionSort, List.mem_filter] at h1
    exact ⟨mem_latestRows h1.1, of_decide_eq_true h1.2⟩
  refine ⟨?_, ?_, ?_, ?_⟩
  · intro r hr
    obtain ⟨hlat, hrest⟩ := hmem r hr
    obtain ⟨htab, -, hmax⟩ := latestFor_spec hlat
    exact ⟨htab, hmax, hrest⟩
  · exact List.Pairwise.sublist (List.take_sublist _ _)
      (List.sorted_insertionSort nextAttemptLe _)
  · unfold getRetryableMetaEvents
    rw [List.length_take]
    exact Nat.min_le_left _ _
  · intro q s hs hstat r hr heq
    obtain ⟨hlat, hpt, -⟩ := hmem r hr
    rw [heq, hs] at hlat
    have hrs : s = r := Option.some.inj hlat
    rw [← hrs] at hpt
    rcases hstat with h1 | h1 <;> rcases hpt with h2 | h2 <;> rw [h1] at h2 <;> cases h2

/-- Witness for C3 at a concrete four-row table: queue 1 has a due FAILED
latest row, queue 2 has a SENT latest row; the scan returns exactly queue 1's
latest row. -/
theorem getRetryableMetaEvents_spec_witness :
    ((⟨1, QStatus.FAILED, 1, 10, 50⟩ : MetaQueueRecord) ∈
      getRetryableMetaEvents
        [⟨1, QStatus.PENDING, 0, 5, 5⟩, ⟨2, QStatus.PENDING, 0, 6, 6⟩,
          ⟨1, QStatus.FAILED, 1, 10, 50⟩, ⟨2, QStatus.SENT, 1, 20, 20⟩] 100 10) ∧
    ((⟨1, QStatus.FAILED, 1, 10, 50⟩ : MetaQueueRecord) ∈
      [⟨1, QStatus.PENDING, 0, 5, 5⟩, ⟨2, QStatus.PENDING, 0, 6, 6⟩,
        ⟨1, QStatus.FAILED, 1, 10, 50⟩, ⟨2, QStatus.SENT, 1, 20, 20⟩] ∧
      (∀ x ∈ [(⟨1, QStatus.PENDING, 0, 5, 5⟩ : MetaQueueRecord),
          ⟨2, QStatus.PENDING, 0, 6, 6⟩, ⟨1, QStatus.FAILED, 1, 10, 50⟩,
          ⟨2, QStatus.SENT, 1, 20, 20⟩],
        x.queue_id = (⟨1, QStatus.FAILED, 1, 10, 50⟩ : MetaQueueRecord).queue_id →
          x.updated_at ≤ (⟨1, QStatus.FAILED, 1, 10, 50⟩ : MetaQueueRecord).updated_at) ∧
      ((⟨1, QStatus.FAILED, 1, 10, 50⟩ : MetaQueueRecord).status = QStatus.PENDING ∨
        (⟨1, QStatus.FAILED, 1, 10, 50⟩ : MetaQueueRecord).status = QStatus.FAILED) ∧
      (⟨1, QStatus.FAILED, 1, 10, 50⟩ : MetaQueueRecord).next_attempt_at ≤ 100) :=
  ⟨by decide,
    (getRetryableMetaEvents_spec
      [⟨1, QStatus.PENDING, 0, 5, 5⟩, ⟨2, QStatus.PENDING, 0, 6, 6⟩,
        ⟨1, QStatus.FAILED, 1, 10, 50⟩, ⟨2, QStatus.SENT, 1, 20, 20⟩] 100 10).1
      ⟨1, QStatus.FAILED, 1, 10, 50⟩ (by decide)⟩

/-- Result of a Keap CRM call inside `processPayment`: the call returned a
value, returned null (the client maps HTTP 404 to null), or threw (any other
transport or API error is rethrown by the client). -/
inductive CrmFetch (A : Type) where
  | ok (val : A)
  | notFound
  | failure
deriving DecidableEq, Repr

/-- The order fields the classifier reads.  `subscription_plan_id` is the
JS-truthy reading of `order.subscription_plan?.id`: an absent plan and a plan
with id 0 both collapse to `none`, exactly as the source's `if (subPlan?.id)`
and `sp?.id === subscriptionPlanId` treat them.  `creationDay` is the calendar
day of `order.creation_date` (absent when the field is missing). -/
structure OrderModel where
  id : Nat
  creationDay : Option Nat
  subscription_plan_id : Option Nat
deriving DecidableEq, Repr

/-- The transaction fields the classifier reads: `contact_id` (truthy: 0 and
absent collapse to `none`, matching `if (!contactId)`) and `order_ids`
(truthy string, kept as the numeric order id). -/
structure TransactionModel where
  contact_id : Option Nat
  order_id : Option Nat
deriving DecidableEq, Repr

/-- All external inputs consumed by one `processPayment` invocation:
the transaction fetch, the contact fetch, whether brand and pixel resolved,
the order fetch (consulted only when the transaction carries an order id),
today's calendar day, and the contact's PAID orders (`none` when
`getOrdersByContact` threw). -/
structure ProcessEnv where
  txn : CrmFetch TransactionModel
  contact : CrmFetch Unit
  brandPixel : Option Unit
  orderFetch : CrmFetch OrderModel
  today : Nat
  paidOrders : Option (List OrderModel)
deriving DecidableEq

/-- Observable outcome of `processPayment`: an exception escaped, an early
return with no event, the installment skip (webhook-log row only), or a CAPI
event queued with the given `event_name`. -/
inductive ProcessResult where
  | thrown
  | noEvent
  | installmentSkip
  | queued (eventName : String)
deriving DecidableEq, Repr

/-- The `event_name` computation: RecurringPayment iff the order carries a
truthy subscription-plan id and the contact has at least one other PAID order
with the same plan id (`String(o.id) !== orderId`); Purchase otherwise,
including when `getOrdersByContact` threw (classification error default). -/
def classifyEventName (fetched : Option OrderModel)
    (paidOrders : Option (List OrderModel)) (orderId : Option Nat) : String :=
  match fetched.bind (fun o => o.subscription_plan_id) with
  | none => "Purchase"
  | some p =>
    match paidOrders with
    | none => "Purchase"
    | some orders =>
      if 0 < (orders.filter (fun o =>
          decide (o.subscription_plan_id = some p) && decide (some o.id ≠ orderId))).length
      then "RecurringPayment" else "Purchase"

/-- Embedding of `processPayment` (invoice-payment webhook route): fetch the
transaction (null → return, throw → propagate), require a truthy contact id,
fetch the contact (null → return, throw → propagate), resolve brand and pixel
(unresolved → return), fetch the order when an order id is present (errors
caught, order treated as absent), skip entirely when the order's creation day
differs from today, then classify and queue the CAPI event. -/
def processPayment (env : ProcessEnv) : ProcessResult :=
  match env.txn with
  | .failure => .thrown
  | .notFound => .noEvent
  | .ok txn =>
    match txn.contact_id with
    | none => .noEvent
    | some _ =>
      match env.contact with
      | .failure => .thrown
      | .notFound => .noEvent
      | .ok _ =>
        match env.brandPixel with
        | none => .noEvent
        | some _ =>
          match txn.order_id with
          | none => .queued (classifyEventName none env.paidOrders none)
          | some oid =>
            match env.orderFetch with
            | .ok o =>
              match o.creationDay with
              | some d =>
                if d ≠ env.today then .installmentSkip
                else .queued (classifyEventName (some o) env.paidOrders (some oid))
              | none => .queued (classifyEventName (some o) env.paidOrders (some oid))
            | .notFound => .queued (classifyEventName none env.paidOrders (some oid))
            | .failure => .queued (classifyEventName none env.paidOrders (some oid))

/-- Whether a `processPayment` outcome queued a delivery event. -/
def emitsEvent : ProcessResult → Bool
  | .queued _ => true
  | _ => false

/-- The webhook handler's per-payment wrapper: `processPayment` runs inside
try/catch, a thrown error is only logged, and the handler always responds
`{received: true}`. -/
def handlePaymentAck (env : ProcessEnv) : Bool :=
  match processPayment env with
  | .thrown => true
  | _ => true

/-- C4: classification of a payment with resolvable brand and pixel whose
transaction, contact and order fetches succeed.  An order created on a day
other than today is skipped with no event; otherwise: no subscription plan →
Purchase; a plan with at least one other PAID order on the same plan →
RecurringPayment; a plan with zero such prior orders → Purchase. -/
theorem processPayment_classification_spec (env : ProcessEnv)
    (txn : TransactionModel) (cid oid : Nat) (o : OrderModel)
    (htxn : env.txn = .ok txn) (hcid : txn.contact_id = some cid)
    (hcontact : env.contact = .ok ())
    (hbp : env.brandPixel = some ())
    (hoid : txn.order_id = some oid)
    (horder : env.orderFetch = .ok o) :
    (∀ d, o.creationDay = some d → d ≠ env.today →
      processPayment env = .installmentSkip) ∧
    ((o.creationDay = none ∨ o.creationDay = some env.today) →
      (o.subscription_plan_id = none → processPayment env = .queued "Purchase") ∧
      (∀ p orders, o.subscription_plan_id = some p → env.paidOrders = some orders →
        (0 < (orders.filter (fun x =>
            decide (x.subscription_plan_id = some p) && decide (some x.id ≠ some oid))).length →
          processPayment env = .queued "RecurringPayment") ∧
        ((orders.filter (fun x =>
            decide (x.subscription_plan_id = some p) && decide (some x.id ≠ some oid))).length = 0 →
          processPayment env = .queued "Purchase"))) := by
  constructor
  · intro d hd hne
    simp only [processPayment, htxn, hcid, hcontact, hbp, hoid, horder, hd, if_pos hne]
  · intro hday
    have hclass : processPayment env =
        .queued (classifyEventName (some o) env.paidOrders (some oid)) := by
      rcases hday with hd | hd
      · simp only [processPayment, htxn, hcid, hcontact, hbp, hoid, horder, hd]
      · simp only [processPayment, htxn, hcid, hcontact, hbp, hoid, horder, hd]
        rw [if_neg (fun h => h rfl)]
    refine ⟨fun hplan => ?_, fun p orders hplan hpaid => ⟨fun hpos => ?_, fun hzero => ?_⟩⟩
    · rw [hclass]
      simp only [classifyEventName, Option.bind, hplan]
    · rw [hclass]
      simp only [classifyEventName, Option.bind, hplan, hpaid]
      rw [if_pos hpos]
    · rw [hclass]
      simp only [classifyEventName, Option.bind, hplan, hpaid]
      rw [if_neg (by omega)]

/-- Witness for C4: same-day order on plan 3 with one other PAID order on
plan 3 classifies as RecurringPayment. -/
theorem processPayment_classification_spec_witness :
    processPayment
      ⟨.ok ⟨some 4, some 70⟩, .ok (), some (), .ok ⟨70, some 9, some 3⟩, 9,
        some [⟨71, none, some 3⟩]⟩ = .queued "RecurringPayment" :=
  ((processPayment_classification_spec
      ⟨.ok ⟨some 4, some 70⟩, .ok (), some (), .ok ⟨70, some 9, some 3⟩, 9,
        some [⟨71, none, some 3⟩]⟩
      ⟨some 4, some 70⟩ 4 70 ⟨70, some 9, some 3⟩
      rfl rfl rfl rfl rfl rfl).2 (Or.inr rfl) |>.2 3 [⟨71, none, some 3⟩]
      rfl rfl |>.1) (by decide)

/-- C5 counterexample: a payment whose transaction fetch throws (and one whose
transaction fetch returns null).  In both cases `processPayment` produces no
delivery event, contradicting the claim that every failing CRM call — the
transaction fetch included — still defaults to Purchase and emits an event. -/
theorem processPayment_txn_failure_no_event :
    processPayment ⟨.failure, .ok (), some (), .notFound, 0, none⟩ =
      ProcessResult.thrown ∧
    emitsEvent (processPayment ⟨.failure, .ok (), some (), .notFound, 0, none⟩) = false ∧
    processPayment ⟨.notFound, .ok (), some (), .notFound, 0, none⟩ =
      ProcessResult.noEvent ∧
    emitsEvent (processPayment ⟨.notFound, .ok (), some (), .notFound, 0, none⟩) = false :=
  ⟨rfl, rfl, rfl, rfl⟩

/-- C5 amended: only errors in the order fetch and the prior-paid-orders fetch
default the event to Purchase while still emitting it; a failing transaction
or contact fetch yields no event (null results return early, thrown errors
escape `processPayment`); and in every case no error is surfaced to the
webhook caller — the handler's try/catch always acks. -/
theorem processPayment_error_handling_spec (env : ProcessEnv)
    (txn : TransactionModel) (cid : Nat) :
    (env.txn = .ok txn → txn.contact_id = some cid → env.contact = .ok () →
      env.brandPixel = some () → ∀ oid, txn.order_id = some oid →
      env.orderFetch = .failure → processPayment env = .queued "Purchase") ∧
    (env.txn = .ok txn → txn.contact_id = some cid → env.contact = .ok () →
      env.brandPixel = some () → ∀ oid o, txn.order_id = some oid →
      env.orderFetch = .ok o →
      (o.creationDay = none ∨ o.creationDay = some env.today) →
      env.paidOrders = none → processPayment env = .queued "Purchase") ∧
    (env.txn = .failure → processPayment env = .thrown) ∧
    (env.txn = .notFound → processPayment env = .noEvent) ∧
    (env.txn = .ok txn → txn.contact_id = some cid → env.contact = .failure →
      processPayment env = .thrown) ∧
    (env.txn = .ok txn → txn.contact_id = some cid → env.contact = .notFound →
      processPayment env = .noEvent) ∧
    (emitsEvent ProcessResult.thrown = false ∧
      emitsEvent ProcessResult.noEvent = false) ∧
    (∀ env2 : ProcessEnv, handlePaymentAck env2 = true) := by
  refine ⟨?_, ?_, ?_, ?_, ?_, ?_, ⟨rfl, rfl⟩, ?_⟩
  · intro htxn hcid hcontact hbp oid hoid horder
    simp only [processPayment, htxn, hcid, hcontact, hbp, hoid, horder,
      classifyEventName, Option.bind]
  · intro htxn hcid hcontact hbp oid o hoid horder hday hpaid
    rcases hday with hd | hd
    · simp only [processPayment, htxn, hcid, hcontact, hbp, hoid, horder, hd,
        classifyEventName, Option.bind, hpaid]
      cases o.subscription_plan_id <;> rfl
    · simp only [processPayment, htxn, hcid, hcontact, hbp, hoid, horder, hd]
      rw [if_neg (fun h => h rfl)]
      simp only [classifyEventName, Option.bind, hpaid]
      cases o.subscription_plan_id <;> rfl
  · intro htxn
    simp only [processPayment, htxn]
  · intro htxn
    simp only [processPayment, htxn]
  · intro htxn hcid hcontact
    simp only [processPayment, htxn, hcid, hcontact]
  · intro htxn hcid hcontact
    simp only [processPayment, htxn, hcid, hcontact]
  · intro env2
    unfold handlePaymentAck
    split <;> rfl

/-- Witness for C5 amended: order fetch throws, event still queued as
Purchase. -/
theorem processPayment_error_handling_spec_witness :
    processPayment ⟨.ok ⟨some 4, some 70⟩, .ok (), some (), .failure, 9, none⟩ =
      ProcessResult.queued "Purchase" :=
  (processPayment_error_handling_spec
      ⟨.ok ⟨some 4, some 70⟩, .ok (), some (), .failure, 9, none⟩
      ⟨some 4, some 70⟩ 4).1 rfl rfl rfl rfl 70 rfl rfl

/-- One reconciliation attempt over the batch of recent CRM transactions:
skip a transaction when its id is 0, when it is already in the dedup index,
or when it was already resolved in this run; otherwise feed it into
`processPayment` (`pOk t` says whether that call completed without throwing,
in which case the id is added to the resolved set).  Returns the new resolved
set and the list of ids fed into `processPayment`. -/
def reconcileAttempt (pOk : Nat → Bool) (inIndex : Nat → Bool) :
    List Nat → List Nat → List Nat × List Nat
  | [], reconciled => (reconciled, [])
  | txn :: rest, reconciled =>
    if txn = 0 || inIndex txn || decide (txn ∈ reconciled) then
      reconcileAttempt pOk inIndex rest reconciled
    else
      let out := reconcileAttempt pOk inIndex rest
        (if pOk txn then reconciled ++ [txn] else reconciled)
      (out.1, txn :: out.2)

theorem reconcileAttempt_not_fed (pOk inIndex : Nat → Bool) (t : Nat) :
    ∀ (txns rec : List Nat), (t ∈ rec ∨ inIndex t = true) →
      t ∉ (reconcileAttempt pOk inIndex txns rec).2 ∧
      (t ∈ rec → t ∈ (reconcileAttempt pOk inIndex txns rec).1)
  | [], rec, h => ⟨List.not_mem_nil t, fun ht => ht⟩
  | x :: rest, rec, h => by
    unfold reconcileAttempt
    split
    · exact reconcileAttempt_not_fed pOk inIndex t rest rec h
    · next hcond =>
      simp only [Bool.or_eq_true, decide_eq_true_eq, not_or] at hcond
      obtain ⟨⟨hx0, hxidx⟩, hxrec⟩ := hcond
      have htx : t ≠ x := by
        rcases h with h | h
        · intro he
          rw [he] at h
          exact hxrec h
        · intro he
          rw [he] at h
          exact hxidx h
      have h2 : t ∈ (if pOk x then rec ++ [x] else rec) ∨ inIndex t = true := by
        rcases h with h | h
        · left
          split
          · exact List.mem_append.2 (Or.inl h)
          · exact h
        · exact Or.inr h
      obtain ⟨hnf, hmem⟩ := reconcileAttempt_not_fed pOk inIndex t rest _ h2
      refine ⟨?_, fun ht => ?_⟩
      · intro hc
        rcases List.mem_cons.1 hc with hc' | hc'
        · exact htx hc'
        · exact hnf hc'
      · refine hmem ?_
        split
        · exact List.mem_append.2 (Or.inl ht)
        · exact ht

theorem reconcileAttempt_feeds (pOk inIndex : Nat → Bool) (t : Nat) :
    ∀ (txns rec : List Nat), t ∈ txns → t ≠ 0 → inIndex t = false → t ∉ rec →
      t ∈ (reconcileAttempt pOk inIndex txns rec).2
  | [], rec, ht, _, _, _ => absurd ht (List.not_mem_nil t)
  | x :: rest, rec, ht, h0, hidx, hrec => by
    unfold reconcileAttempt
    by_cases hxt : x = t
    · rw [hxt]
      rw [if_neg (by
        simp only [Bool.or_eq_true, decide_eq_true_eq, not_or]
        refine ⟨⟨h0, ?_⟩, hrec⟩
        rw [hidx]
        exact Bool.false_ne_true)]
      exact List.mem_cons_self _ _
    · have ht2 : t ∈ rest := by
        rcases List.mem_cons.1 ht with h | h
        · exact absurd h.symm hxt
        · exact h
      split
      · exact reconcileAttempt_feeds pOk inIndex t rest rec ht2 h0 hidx hrec
      · have hrec2 : t ∉ (if pOk x then rec ++ [x] else rec) := by
          split
          · intro hc
            rcases List.mem_append.1 hc with hc' | hc'
            · exact hrec hc'
            · exact hxt (List.mem_singleton.1 hc').symm
          · exact hrec
        exact List.mem_cons_of_mem _
          (reconcileAttempt_feeds pOk inIndex t rest _ ht2 h0 hidx hrec2)

theorem reconcileAttempt_count_le (pOk inIndex : Nat → Bool) (t : Nat)
    (hok : pOk t = true) :
    ∀ (txns rec : List Nat), t ∉ rec →
      ((reconcileAttempt pOk inIndex txns rec).2.count t ≤ 1 ∧
        (t ∈ (reconcileAttempt pOk inIndex txns rec).2 →
          t ∈ (reconcileAttempt pOk inIndex txns rec).1) ∧
        (t ∉ (reconcileAttempt pOk inIndex txns rec).2 →
          t ∉ (reconcileAttempt pOk inIndex txns rec).1))
  | [], rec, hrec => by
    refine ⟨?_, fun h => absurd h (List.not_mem_nil t), fun _ => hrec⟩
    rw [show (reconcileAttempt pOk inIndex [] rec).2 = [] from rfl, List.count_nil]
    exact Nat.zero_le 1
  | x :: rest, rec, hrec => by
    unfold reconcileAttempt
    split
    · exact reconcileAttempt_count_le pOk inIndex t hok rest rec hrec
    · next hcond =>
      simp only [Bool.or_eq_true, decide_eq_true_eq, not_or] at hcond
      obtain ⟨⟨hx0, hxidx⟩, hxrec⟩ := hcond
      by_cases hxt : x = t
      · subst hxt
        have hin : x ∈ (if pOk x then rec ++ [x] else rec) := by
          rw [hok]
          simp
        obtain ⟨hnf, hmem⟩ := reconcileAttempt_not_fed pOk inIndex x rest _ (Or.inl hin)
        refine ⟨?_, fun _ => hmem hin, fun hc => absurd (List.mem_cons_self _ _) hc⟩
        rw [List.count_cons_self, List.count_eq_zero.2 hnf]
      · have hrec2 : t ∉ (if pOk x then rec ++ [x] else rec) := by
          split
          · intro hc
            rcases List.mem_append.1 hc with hc' | hc'
            · exact hrec hc'
            · exact hxt (List.mem_singleton.1 hc').symm
          · exact hrec
        obtain ⟨hcnt, hfm, hnm⟩ := reconcileAttempt_count_le pOk inIndex t hok rest _ hrec2
        refine ⟨?_, fun hc => ?_, fun hc => ?_⟩
        · rw [List.count_cons_of_ne (fun h => hxt h.symm)]
          exact hcnt
        · rcases List.mem_cons.1 hc with hc2 | hc2
          · exact absurd hc2.symm hxt
          · exact hfm hc2
        · exact hnm (fun hm => hc (List.mem_cons_of_mem _ hm))

/-- Result of a deferred-payment reconciliation run: the resolved transaction
ids, the ids fed into `processPayment` over the whole run, and the number of
scheduled attempts actually performed. -/
structure RunOut where
  reconciled : List Nat
  fed : List Nat
  attemptsMade : Nat
deriving DecidableEq, Repr

/-- Delays of the global-scan reconciler (`reconcileDeferredPayments`). -/
def reconcileDelays : List Nat := [15000, 30000, 60000]

/-- Delays of the contact-scoped variant (`retryDeferredPayments`). -/
def retryDelays : List Nat := [10000, 20000, 30000]

/-- Membership test of the global variant: `alreadyProcessed.has(String(txnId))`
against the dedup-index snapshot of stripped event-id strings. -/
def inStringIndex (idx : List String) (t : Nat) : Bool :=
  decide (Nat.repr t ∈ idx)

/-- The global reconciliation loop: one iteration per scheduled delay, each
checking the early-exit condition (`reconciled.size >= expectedCount`) before
running an attempt against that iteration's fresh batch of recent transactions
and dedup-index snapshot. -/
def reconcileLoop (pOk : Nat → Bool) (expected : Nat) :
    List (List Nat × List String) → List Nat → RunOut
  | [], reconciled => ⟨reconciled, [], 0⟩
  | (txns, idx) :: rest, reconciled =>
    if expected ≤ reconciled.length then ⟨reconciled, [], 0⟩
    else
      let a := reconcileAttempt pOk (inStringIndex idx) txns reconciled
      let r := reconcileLoop pOk expected rest a.1
      ⟨r.reconciled, a.2 ++ r.fed, r.attemptsMade + 1⟩

/-- Embedding of `reconcileDeferredPayments`: run the loop over the three
scheduled delays starting from an empty resolved set; afterwards log a
warning iff no transaction at all was reconciled (`reconciled.size > 0`
logs the info summary instead).  The Bool is `true` iff a warning is logged. -/
def reconcileDeferredPayments (pOk : Nat → Bool) (expected : Nat)
    (data : List (List Nat × List String)) : RunOut × Bool :=
  let out := reconcileLoop pOk expected (data.take reconcileDelays.length) []
  (out, decide (out.reconciled.length = 0))

/-- The contact-scoped retry loop: same shape, but the dedup set
(`processedTxnIds`, a set of numeric ids) is fixed for the whole run. -/
def retryLoop (pOk : Nat → Bool) (expected : Nat) (processedTxnIds : List Nat) :
    List (List Nat) → List Nat → RunOut
  | [], newlyProcessed => ⟨newlyProcessed, [], 0⟩
  | txns :: rest, newlyProcessed =>
    if expected ≤ newlyProcessed.length then ⟨newlyProcessed, [], 0⟩
    else
      let a := reconcileAttempt pOk (fun t => decide (t ∈ processedTxnIds))
        txns newlyProcessed
      let r := retryLoop pOk expected processedTxnIds rest a.1
      ⟨r.reconciled, a.2 ++ r.fed, r.attemptsMade + 1⟩

/-- Embedding of `retryDeferredPayments`: three scheduled attempts scoped to
the contact's recent transactions; a warning is logged iff fewer than
`expectedCount` payments were resolved. -/
def retryDeferredPayments (pOk : Nat → Bool) (expected : Nat)
    (processedTxnIds : List Nat) (data : List (List Nat)) : RunOut × Bool :=
  let out := retryLoop pOk expected processedTxnIds (data.take retryDelays.length) []
  (out, decide (out.reconciled.length < expected))

theorem reconcileLoop_attempts_le (pOk : Nat → Bool) (expected : Nat) :
    ∀ (data : List (List Nat × List String)) (rec : List Nat),
      (reconcileLoop pOk expected data rec).attemptsMade ≤ data.length
  | [], _ => Nat.zero_le 0
  | (txns, idx) :: rest, rec => by
    unfold reconcileLoop
    split
    · exact Nat.zero_le _
    · exact Nat.succ_le_succ (reconcileLoop_attempts_le pOk expected rest _)

theorem retryLoop_attempts_le (pOk : Nat → Bool) (expected : Nat)
    (processedTxnIds : List Nat) :
    ∀ (data : List (List Nat)) (rec : List Nat),
      (retryLoop pOk expected processedTxnIds data rec).attemptsMade ≤ data.length
  | [], _ => Nat.zero_le 0
  | txns :: rest, rec => by
    unfold retryLoop
    split
    · exact Nat.zero_le _
    · exact Nat.succ_le_succ (retryLoop_attempts_le pOk expected processedTxnIds rest _)

theorem reconcileLoop_not_fed_of_index (pOk : Nat → Bool) (expected : Nat) (t : Nat) :
    ∀ (data : List (List Nat × List String)) (rec : List Nat),
      (∀ p ∈ data, inStringIndex p.2 t = true) →
      t ∉ (reconcileLoop pOk expected data rec).fed
  | [], _, _ => List.not_mem_nil t
  | (txns, idx) :: rest, rec, h => by
    unfold reconcileLoop
    split
    · exact List.not_mem_nil t
    · intro hc
      rcases List.mem_append.1 hc with hc2 | hc2
      · exact (reconcileAttempt_not_fed pOk (inStringIndex idx) t txns rec
          (Or.inr (h (txns, idx) (List.mem_cons_self _ _)))).1 hc2
      · exact reconcileLoop_not_fed_of_index pOk expected t rest _
          (fun p hp => h p (List.mem_cons_of_mem _ hp)) hc2

theorem reconcileLoop_count_le (pOk : Nat → Bool) (expected : Nat) (t : Nat)
    (hok : pOk t = true) :
    ∀ (data : List (List Nat × List String)) (rec : List Nat),
      (t ∈ rec → t ∉ (reconcileLoop pOk expected data rec).fed) ∧
      (t ∉ rec → (reconcileLoop pOk expected data rec).fed.count t ≤ 1)
  | [], rec => ⟨fun _ => List.not_mem_nil t, fun _ => Nat.zero_le 1⟩
  | (txns, idx) :: rest, rec => by
    unfold reconcileLoop
    split
    · exact ⟨fun _ => List.not_mem_nil t, fun _ => Nat.zero_le 1⟩
    · constructor
      · intro hrec hc
        obtain ⟨hnf, hmem⟩ :=
          reconcileAttempt_not_fed pOk (inStringIndex idx) t txns rec (Or.inl hrec)
        rcases List.mem_append.1 hc with hc2 | hc2
        · exact hnf hc2
        · exact (reconcileLoop_count_le pOk expected t hok rest _).1 (hmem hrec) hc2
      · intro hrec
        obtain ⟨hcnt, hfm, hnm⟩ :=
          reconcileAttempt_count_le pOk (inStringIndex idx) t hok txns rec hrec
        rw [List.count_append]
        by_cases hf : t ∈ (reconcileAttempt pOk (inStringIndex idx) txns rec).2
        · have hz : (reconcileLoop pOk expected rest
              (reconcileAttempt pOk (inStringIndex idx) txns rec).1).fed.count t = 0 :=
            List.count_eq_zero.2
              ((reconcileLoop_count_le pOk expected t hok rest _).1 (hfm hf))
          rw [hz]
          omega
        · have hz : ((reconcileAttempt pOk (inStringIndex idx) txns rec).2).count t = 0 :=
            List.count_eq_zero.2 hf
          rw [hz]
          exact Nat.le_trans (Nat.le_of_eq (Nat.zero_add _))
            ((reconcileLoop_count_le pOk expected t hok rest _).2 (hnm hf))

/-- C6: Reconciler idempotence.  A transaction id present in the dedup-index
snapshot of every attempt is never fed into `processPayment`; an id already in
the resolved set is never fed; and over a whole run an id whose
`processPayment` call succeeds is fed at most once, so no second delivery
attempt is produced for it. -/
theorem reconciler_idempotent (pOk : Nat → Bool) (expected : Nat)
    (data : List (List Nat × List String)) (t : Nat) (rec : List Nat) :
    ((∀ p ∈ data, inStringIndex p.2 t = true) →
      t ∉ (reconcileDeferredPayments pOk expected data).1.fed) ∧
    (pOk t = true → t ∈ rec → t ∉ (reconcileLoop pOk expected data rec).fed) ∧
    (pOk t = true →
      (reconcileDeferredPayments pOk expected data).1.fed.count t ≤ 1) := by
  refine ⟨fun h => ?_, fun hok hrec => ?_, fun hok => ?_⟩
  · exact reconcileLoop_not_fed_of_index pOk expected t _ []
      (fun p hp => h p (List.take_subset _ _ hp))
  · exact (reconcileLoop_count_le pOk expected t hok data rec).1 hrec
  · exact (reconcileLoop_count_le pOk expected t hok _ []).2 (List.not_mem_nil t)

/-- Witness for C6: transaction 42 sits in every attempt's dedup snapshot and
is never fed into the pipeline. -/
theorem reconciler_idempotent_witness :
    (∀ p ∈ [([42], ["42"]), ([42], ["42"]), ([42], ["42"])], inStringIndex
      (Prod.snd (α := List Nat) p) 42 = true) ∧
    42 ∉ (reconcileDeferredPayments (fun _ => true) 5
      [([42], ["42"]), ([42], ["42"]), ([42], ["42"])]).1.fed :=
  ⟨by decide,
    (reconciler_idempotent (fun _ => true) 5
      [([42], ["42"]), ([42], ["42"]), ([42], ["42"])] 42 []).1 (by decide)⟩

/-- C7 counterexample: a global reconciliation run with 2 expected placeholder
payments that resolves only 1 transaction exhausts all 3 attempts without
reaching the expected count, yet logs no warning (the source only warns when
`reconciled.size === 0`; with a partial result it logs the info summary). -/
theorem reconcile_partial_no_warning :
    (reconcileDeferredPayments (fun _ => true) 2
      [([5], []), ([], []), ([], [])]).1.attemptsMade = 3 ∧
    (reconcileDeferredPayments (fun _ => true) 2
      [([5], []), ([], []), ([], [])]).1.reconciled.length = 1 ∧
    1 < 2 ∧
    (reconcileDeferredPayments (fun _ => true) 2
      [([5], []), ([], []), ([], [])]).2 = false := by
  refine ⟨?_, ?_, by omega, ?_⟩ <;> rfl

/-- C7 amended: both Reconciler variants make at most 3 scheduled attempts
(delays 15s/30s/60s globally, 10s/20s/30s contact-scoped) and always
terminate; each loop stops before the next attempt as soon as the resolved
count reaches the expected count; after exhaustion no further action is taken;
and the final log is a warning iff zero transactions were resolved (global
variant) resp. iff fewer than expected were resolved (contact variant). -/
theorem reconciler_attempts_spec (pOk : Nat → Bool) (expected : Nat)
    (data : List (List Nat × List String)) (processedTxnIds : List Nat)
    (dataC : List (List Nat)) :
    reconcileDelays = [15000, 30000, 60000] ∧
    retryDelays = [10000, 20000, 30000] ∧
    (reconcileDeferredPayments pOk expected data).1.attemptsMade ≤ 3 ∧
    (retryDeferredPayments pOk expected processedTxnIds dataC).1.attemptsMade ≤ 3 ∧
    (∀ (d : List (List Nat × List String)) (rec : List Nat), expected ≤ rec.length →
      reconcileLoop pOk expected d rec = ⟨rec, [], 0⟩) ∧
    (∀ (d : List (List Nat)) (rec : List Nat), expected ≤ rec.length →
      retryLoop pOk expected processedTxnIds d rec = ⟨rec, [], 0⟩) ∧
    (expected = 0 →
      (reconcileDeferredPayments pOk expected data).1 = ⟨[], [], 0⟩ ∧
      (retryDeferredPayments pOk expected processedTxnIds dataC).1 = ⟨[], [], 0⟩) ∧
    ((reconcileDeferredPayments pOk expected data).2 = true ↔
      (reconcileDeferredPayments pOk expected data).1.reconciled.length = 0) ∧
    ((retryDeferredPayments pOk expected processedTxnIds dataC).2 = true ↔
      (retryDeferredPayments pOk expected processedTxnIds dataC).1.reconciled.length <
        expected) := by
  have hstopG : ∀ (d : List (List Nat × List String)) (rec : List Nat),
      expected ≤ rec.length → reconcileLoop pOk expected d rec = ⟨rec, [], 0⟩ := by
    intro d rec h
    cases d with
    | nil => rfl
    | cons p rest =>
      cases p with
      | mk txns idx =>
        unfold reconcileLoop
        rw [if_pos h]
  have hstopC : ∀ (d : List (List Nat)) (rec : List Nat),
      expected ≤ rec.length → retryLoop pOk expected processedTxnIds d rec = ⟨rec, [], 0⟩ := by
    intro d rec h
    cases d with
    | nil => rfl
    | cons txns rest =>
      unfold retryLoop
      rw [if_pos h]
  refine ⟨rfl, rfl, ?_, ?_, hstopG, hstopC, fun h0 => ?_, ?_, ?_⟩
  · exact Nat.le_trans (reconcileLoop_attempts_le pOk expected _ [])
      (by rw [List.length_take]; exact Nat.min_le_left _ _)
  · exact Nat.le_trans (retryLoop_attempts_le pOk expected processedTxnIds _ [])
      (by rw [List.length_take]; exact Nat.min_le_left _ _)
  · constructor
    · exact hstopG _ [] (by rw [h0]; exact Nat.zero_le _)
    · exact hstopC _ [] (by rw [h0]; exact Nat.zero_le _)
  · exact ⟨fun h => of_decide_eq_true h, fun h => decide_eq_true h⟩
  · exact ⟨fun h => of_decide_eq_true h, fun h => decide_eq_true h⟩

/-- Witness for C7 amended: a run whose resolved set already meets the
expected count performs no further attempt and changes nothing. -/
theorem reconciler_attempts_spec_witness :
    (2 ≤ ([1, 2] : List Nat).length) ∧
    reconcileLoop (fun _ => true) 2 [([3], [])] [1, 2] = ⟨[1, 2], [], 0⟩ :=
  ⟨by decide,
    ((reconciler_attempts_spec (fun _ => true) 2 [([3], [])] [] []).2.2.2.2.1)
      [([3], [])] [1, 2] (by decide)⟩

/-- Embedding of `getRecentlyProcessedTransactionIds`: the dedup-index query
returns the distinct event ids of recent purchase rows with the
`purchase_txn_` marker stripped; if the query throws, the catch branch logs
and returns the empty set. -/
def getRecentlyProcessedTransactionIds (queryRows : Option (List String)) :
    List String :=
  match queryRows with
  | none => []
  | some rows => (rows.map (fun e => e.replace "purchase_txn_" "")).dedup

/-- C9: a Dedup Index failure degrades deduplication to at-least-once
delivery but never aborts the run: on query failure the lookup returns the
empty set, every id then tests as not-yet-processed, and a reconciliation
attempt feeds every valid (nonzero, not already resolved) recent transaction
— including already-delivered ones — into `processPayment`. -/
theorem dedup_failure_degrades (pOk : Nat → Bool) (txns rec : List Nat)
    (t : Nat) (rows : List String) :
    getRecentlyProcessedTransactionIds none = [] ∧
    getRecentlyProcessedTransactionIds (some rows) =
      (rows.map (fun e => e.replace "purchase_txn_" "")).dedup ∧
    (∀ s : Nat, inStringIndex (getRecentlyProcessedTransactionIds none) s = false) ∧
    (t ∈ txns → t ≠ 0 → t ∉ rec →
      t ∈ (reconcileAttempt pOk
        (inStringIndex (getRecentlyProcessedTransactionIds none)) txns rec).2) := by
  refine ⟨rfl, rfl, fun s => rfl, fun ht h0 hrec => ?_⟩
  exact reconcileAttempt_feeds pOk _ t txns rec ht h0 rfl hrec

/-- Witness for C9: transaction 42 (already delivered upstream) is fed again
when the dedup lookup failed. -/
theorem dedup_failure_degrades_witness :
    (42 ∈ ([42] : List Nat)) ∧
    42 ∈ (reconcileAttempt (fun _ => true)
      (inStringIndex (getRecentlyProcessedTransactionIds none)) [42] []).2 :=
  ⟨by decide,
    (dedup_failure_degrades (fun _ => true) [42] [] 42 ["purchase_txn_7"]).2.2.2
      (by decide) (by decide) (by decide)⟩

/-- A JavaScript string, modelled as its sequence of UTF-16 code units. -/
abbrev JsStr := List Nat

/-- `String.prototype.toLowerCase` on one code unit.  ASCII uppercase letters
map to lowercase, other units are fixed; the proofs below rely only on the map
being idempotent, which also holds for the full Unicode mapping the runtime
applies. -/
def jsLowerCode (c : Nat) : Nat :=
  if 65 ≤ c ∧ c ≤ 90 then c + 32 else c

/-- `value.toLowerCase()`. -/
def jsToLowerCase (s : JsStr) : JsStr := s.map jsLowerCode

/-- The whitespace test of `String.prototype.trim` (ASCII whitespace and
space; lowercasing never maps a letter into this set). -/
def jsIsWhitespace (c : Nat) : Bool := decide ((9 ≤ c ∧ c ≤ 13) ∨ c = 32)

/-- `value.trim()`: strip whitespace from both ends. -/
def jsTrim (s : JsStr) : JsStr :=
  ((s.dropWhile jsIsWhitespace).reverse.dropWhile jsIsWhitespace).reverse

/-- Embedding of `sha256` (meta service): lowercase, trim, then digest;
`digest` abstracts `crypto.createHash('sha256').update(.).digest('hex')`. -/
def sha256 (digest : JsStr → JsStr) (value : JsStr) : JsStr :=
  digest (jsTrim (jsToLowerCase value))

theorem jsLowerCode_idem (c : Nat) :
    jsLowerCode (jsLowerCode c) = jsLowerCode c := by
  unfold jsLowerCode
  split
  · next h => rw [if_neg (by omega)]
  · rfl

theorem dropWhile_head_not {α : Type} (p : α → Bool) (x : α) (l : List α)
    (h : List.dropWhile p (x :: l) = x :: l) : p x = false := by
  cases hp : p x
  · rfl
  · rw [List.dropWhile_cons_of_pos hp] at h
    have hle : (List.dropWhile p l).length ≤ l.length :=
      (List.dropWhile_suffix p).sublist.length_le
    rw [h] at hle
    simp at hle

theorem jsTrim_eq_rdropWhile (s : JsStr) :
    jsTrim s = List.rdropWhile jsIsWhitespace (s.dropWhile jsIsWhitespace) := rfl

theorem jsTrim_idem (s : JsStr) : jsTrim (jsTrim s) = jsTrim s := by
  have ha : List.dropWhile jsIsWhitespace (List.dropWhile jsIsWhitespace s) =
      List.dropWhile jsIsWhitespace s :=
    List.dropWhile_idempotent jsIsWhitespace s
  have hdb : List.dropWhile jsIsWhitespace (jsTrim s) = jsTrim s := by
    rw [jsTrim_eq_rdropWhile]
    cases hc : List.rdropWhile jsIsWhitespace (List.dropWhile jsIsWhitespace s) with
    | nil => rfl
    | cons x xs =>
      obtain ⟨t, ht⟩ :=
        List.rdropWhile_prefix jsIsWhitespace (List.dropWhile jsIsWhitespace s)
      rw [hc] at ht
      have hxa : List.dropWhile jsIsWhitespace s = x :: (xs ++ t) := by
        rw [← ht]
        rfl
      have hx : jsIsWhitespace x = false := by
        apply dropWhile_head_not jsIsWhitespace x (xs ++ t)
        rw [← hxa]
        exact ha
      exact List.dropWhile_cons_of_neg (by rw [hx]; exact Bool.false_ne_true)
  show List.rdropWhile jsIsWhitespace (List.dropWhile jsIsWhitespace (jsTrim s)) = jsTrim s
  rw [hdb, jsTrim_eq_rdropWhile]
  exact List.rdropWhile_idempotent jsIsWhitespace (List.dropWhile jsIsWhitespace s)

theorem map_eq_self_of_fixed {α : Type} {f : α → α} :
    ∀ l : List α, (∀ c ∈ l, f c = c) → l.map f = l
  | [], _ => rfl
  | x :: xs, h => by
    rw [List.map_cons, h x (List.mem_cons_self _ _),
      map_eq_self_of_fixed xs (fun c hc => h c (List.mem_cons_of_mem _ hc))]

theorem mem_jsTrim_subset (s : JsStr) : ∀ c ∈ jsTrim s, c ∈ s := by
  intro c hc
  unfold jsTrim at hc
  rw [List.mem_reverse] at hc
  have h1 : c ∈ (s.dropWhile jsIsWhitespace).reverse :=
    (List.dropWhile_suffix jsIsWhitespace).sublist.subset hc
  rw [List.mem_reverse] at h1
  exact (List.dropWhile_suffix jsIsWhitespace).sublist.subset h1

theorem jsNormalize_idem (s : JsStr) :
    jsTrim (jsToLowerCase (jsTrim (jsToLowerCase s))) = jsTrim (jsToLowerCase s) := by
  have hfix : ∀ c ∈ jsTrim (jsToLowerCase s), jsLowerCode c = c := by
    intro c hc
    have hcl : c ∈ jsToLowerCase s := mem_jsTrim_subset _ c hc
    obtain ⟨d, -, hd⟩ := List.mem_map.1 hcl
    rw [← hd, jsLowerCode_idem]
  have h1 : jsToLowerCase (jsTrim (jsToLowerCase s)) = jsTrim (jsToLowerCase s) :=
    map_eq_self_of_fixed _ hfix
  rw [h1, jsTrim_idem]

/-- The eight user-data fields accepted by `hashUserData`; `none` models null and
undefined alike. -/
structure UserDataFields where
  em : Option JsStr
  ph : Option JsStr
  fn : Option JsStr
  ln : Option JsStr
  external_id : Option JsStr
  ct : Option JsStr
  st : Option JsStr
  zp : Option JsStr

/-- The hashed record built by `hashUserData`: each key is present iff the
source wrote it. -/
structure HashedUserData where
  em : Option JsStr
  ph : Option JsStr
  fn : Option JsStr
  ln : Option JsStr
  external_id : Option JsStr
  ct : Option JsStr
  st : Option JsStr
  zp : Option JsStr
deriving DecidableEq

/-- One conditional assignment `if (fields.k) hashed.k = sha256(fields.k)`:
null, undefined and the empty string are all falsy and leave the key absent. -/
def hashField (digest : JsStr → JsStr) : Option JsStr → Option JsStr
  | some s => if s = [] then none else some (sha256 digest s)
  | none => none

/-- Embedding of `hashUserData`. -/
def hashUserData (digest : JsStr → JsStr) (fields : UserDataFields) :
    HashedUserData :=
  ⟨hashField digest fields.em, hashField digest fields.ph,
    hashField digest fields.fn, hashField digest fields.ln,
    hashField digest fields.external_id, hashField digest fields.ct,
    hashField digest fields.st, hashField digest fields.zp⟩

theorem hashField_some_iff (digest : JsStr → JsStr) (v : Option JsStr) (h : JsStr) :
    hashField digest v = some h ↔
      ∃ s, v = some s ∧ s ≠ [] ∧ h = sha256 digest s := by
  cases v with
  | none => simp [hashField]
  | some s =>
    by_cases hs : s = []
    · subst hs
      simp [hashField]
    · simp only [hashField, if_neg hs, Option.some.injEq]
      constructor
      · intro hh
        exact ⟨s, rfl, hs, hh.symm⟩
      · rintro ⟨v2, hv2, -, hh⟩
        subst hv2
        exact hh.symm

/-- C10: PII hashing is normalization-invariant and partial.  For every
string, `sha256` of the string equals `sha256` of its lowercased-and-trimmed
form, and two inputs with the same normalized form hash identically; and
`hashUserData` emits a key iff the corresponding input field is a non-empty
string, with value `sha256` of that field — null, undefined and empty fields
are omitted. -/
theorem sha256_normalization_spec (digest : JsStr → JsStr) (s t : JsStr)
    (f : UserDataFields) :
    (sha256 digest s = sha256 digest (jsTrim (jsToLowerCase s))) ∧
    (jsTrim (jsToLowerCase s) = jsTrim (jsToLowerCase t) →
      sha256 digest s = sha256 digest t) ∧
    (∀ h, (hashUserData digest f).em = some h ↔
      ∃ v, f.em = some v ∧ v ≠ [] ∧ h = sha256 digest v) ∧
    (∀ h, (hashUserData digest f).ph = some h ↔
      ∃ v, f.ph = some v ∧ v ≠ [] ∧ h = sha256 digest v) ∧
    (∀ h, (hashUserData digest f).fn = some h ↔
      ∃ v, f.fn = some v ∧ v ≠ [] ∧ h = sha256 digest v) ∧
    (∀ h, (hashUserData digest f).ln = some h ↔
      ∃ v, f.ln = some v ∧ v ≠ [] ∧ h = sha256 digest v) ∧
    (∀ h, (hashUserData digest f).external_id = some h ↔
      ∃ v, f.external_id = some v ∧ v ≠ [] ∧ h = sha256 digest v) ∧
    (∀ h, (hashUserData digest f).ct = some h ↔
      ∃ v, f.ct = some v ∧ v ≠ [] ∧ h = sha256 digest v) ∧
    (∀ h, (hashUserData digest f).st = some h ↔
      ∃ v, f.st = some v ∧ v ≠ [] ∧ h = sha256 digest v) ∧
    (∀ h, (hashUserData digest f).zp = some h ↔
      ∃ v, f.zp = some v ∧ v ≠ [] ∧ h = sha256 digest v) := by
  refine ⟨?_, fun hnorm => ?_, fun h => hashField_some_iff digest f.em h,
    fun h => hashField_some_iff digest f.ph h,
    fun h => hashField_some_iff digest f.fn h,
    fun h => hashField_some_iff digest f.ln h,
    fun h => hashField_some_iff digest f.external_id h,
    fun h => hashField_some_iff digest f.ct h,
    fun h => hashField_some_iff digest f.st h,
    fun h => hashField_some_iff digest f.zp h⟩
  · show digest _ = digest _
    rw [jsNormalize_idem]
  · show digest _ = digest _
    rw [hnorm]

/-- Witness for C10: "A b " and "a b" (code units) normalize identically and
hash identically under a concrete digest. -/
theorem sha256_normalization_spec_witness :
    (jsTrim (jsToLowerCase [65, 32, 98, 32]) = jsTrim (jsToLowerCase [97, 32, 98])) ∧
    sha256 (fun l => 7 :: l) [65, 32, 98, 32] = sha256 (fun l => 7 :: l) [97, 32, 98] :=
  ⟨by decide,
    (sha256_normalization_spec (fun l => 7 :: l) [65, 32, 98, 32] [97, 32, 98]
      ⟨none, none, none, none, none, none, none, none⟩).2.1 (by decide)⟩

end Amare
